import Mathlib

/-!
Verification of the notification listener (src/async_bg_listener.py).

The file is a shallow embedding of the `NotificationListener` class:

* the `queue.Queue` handoff between the listen loop and the worker pool,
  together with the workers' get/task_done protocol (`SysState`, `applyStep`);
* the reconnect backoff of `_listen_loop` (`nextDelay`, `backoffRun`);
* the wait operations performed by `stop()` (`stopWaitOps`);
* the sleep primitives used by `_listen_loop` (`SleepOp`);
* the handler failure boundary of `_handle_notification` and the worker
  loop (`handleNotification`, `workerProcess`);
* the lifecycle state touched by `__init__`, `start()` and `stop()`
  (`ListenerState`, `NotificationListener.init`, `startL`, `stopL`);
* the connection lifecycle of `_listen_loop` (`runListen`);
* the intake drain of `conn.notifies` (`drainNotifies`).

Theorems named `C1_…` .. `C10_…` settle the corresponding specification
claims.
-/

namespace AsyncBg

/-- A `psycopg2.extensions.Notify`: the channel/payload pair delivered by
LISTEN/NOTIFY.  (The `pid` field plays no role in the listener and is
omitted.) -/
structure Notify where
  channel : String
  payload : String
deriving DecidableEq, Repr

/-! ## The queue / worker-pool handoff (claim C1)

`queue.Queue` keeps a FIFO list of items plus an `unfinished_tasks`
counter: `put` appends and increments the counter, `get` removes the head,
`task_done` decrements the counter, and `join()` returns exactly when the
counter is zero.  A worker (`_worker_loop`) pops one item at a time and
calls `task_done` after handling it.  We model the interleaved execution
of the listener thread (pushes) and the workers (pops / task_done calls)
as a list of atomic steps. -/

/-- Joint state of `notification_queue` and the workers.
`pending` is the queue content, `inflight` the items a worker has popped
but not yet marked done (tagged with the worker id), `done` the items
whose `task_done` has run (tagged with the worker that processed them),
`unfinished` the queue's `unfinished_tasks` counter. -/
structure SysState where
  pending : List Notify
  inflight : List (Nat × Notify)
  done : List (Nat × Notify)
  unfinished : Nat
deriving DecidableEq, Repr

/-- State right after `__init__`: empty queue, nothing in flight. -/
def initSys : SysState := ⟨[], [], [], 0⟩

/-- One atomic action on the queue: the listener's `put`, or worker `w`'s
successful `get`, or worker `w`'s `task_done` after handling. -/
inductive QStep where
  | push (n : Notify)
  | pop (w : Nat)
  | taskDone (w : Nat)
deriving DecidableEq, Repr

/-- Does worker `w` currently hold a popped, not yet done item? -/
def holds (w : Nat) (infl : List (Nat × Notify)) : Bool :=
  infl.any (fun p => p.1 == w)

/-- Remove worker `w`'s in-flight entry, returning its notification and
the remaining list. -/
def extractW (w : Nat) : List (Nat × Notify) → Option (Notify × List (Nat × Notify))
  | [] => none
  | p :: r =>
    if p.1 == w then some (p.2, r)
    else
      match extractW w r with
      | none => none
      | some (n, r2) => some (n, p :: r2)

/-- Semantics of one step.  `put` never blocks (unbounded queue); `get`
succeeds only on a nonempty queue and only for a worker not already busy
(each worker handles one item at a time); `task_done` only for a worker
holding an item.  Invalid interleavings yield `none`. -/
def applyStep (s : SysState) : QStep → Option SysState
  | .push n => some { s with pending := s.pending ++ [n], unfinished := s.unfinished + 1 }
  | .pop w =>
    match s.pending with
    | [] => none
    | n :: rest =>
      if holds w s.inflight then none
      else some { s with pending := rest, inflight := s.inflight ++ [(w, n)] }
  | .taskDone w =>
    match extractW w s.inflight with
    | none => none
    | some (n, rest) =>
      some { s with inflight := rest, done := s.done ++ [(w, n)],
                    unfinished := s.unfinished - 1 }

/-- Run a list of steps from a state. -/
def runSteps : SysState → List QStep → Option SysState
  | s, [] => some s
  | s, st :: rest =>
    match applyStep s st with
    | none => none
    | some s2 => runSteps s2 rest

/-- The notifications pushed in a step list, in push order. -/
def pushesOf : List QStep → List Notify
  | [] => []
  | .push n :: r => n :: pushesOf r
  | .pop _ :: r => pushesOf r
  | .taskDone _ :: r => pushesOf r

/-- All notifications currently accounted for by the queue's bookkeeping
(still queued, in a worker's hands, or completed), as a multiset. -/
def contentsM (s : SysState) : Multiset Notify :=
  (s.pending : Multiset Notify) + (s.inflight.map Prod.snd : Multiset Notify)
    + (s.done.map Prod.snd : Multiset Notify)

/-- `unfinished_tasks` counts exactly the queued plus in-flight items. -/
def counterInv (s : SysState) : Prop :=
  s.unfinished = s.pending.length + s.inflight.length

theorem extractW_spec {w : Nat} :
    ∀ {l : List (Nat × Notify)} {n : Notify} {r : List (Nat × Notify)},
      extractW w l = some (n, r) →
      l.length = r.length + 1 ∧
        (l.map Prod.snd : Multiset Notify) = n ::ₘ (r.map Prod.snd : Multiset Notify) := by
  intro l
  induction l with
  | nil => intro n r h; simp [extractW] at h
  | cons p tl ih =>
    intro n r h
    by_cases hp : p.1 == w
    · simp [extractW, hp] at h
      obtain ⟨h1, h2⟩ := h
      subst h1; subst h2
      simp
    · simp [extractW, hp] at h
      rcases htl : extractW w tl with _ | ⟨n2, r2⟩
      · rw [htl] at h; simp at h
      · rw [htl] at h
        simp at h
        obtain ⟨h1, h2⟩ := h
        subst h1; subst h2
        obtain ⟨hlen, hms⟩ := ih htl
        refine ⟨by simp [hlen], ?_⟩
        simp only [List.map_cons, ← Multiset.cons_coe]
        rw [hms, Multiset.cons_swap]

theorem applyStep_counterInv {s s2 : SysState} {st : QStep}
    (h : applyStep s st = some s2) (hinv : counterInv s) : counterInv s2 := by
  cases st with
  | push n =>
    simp [applyStep] at h
    subst h
    simp [counterInv] at hinv ⊢
    omega
  | pop w =>
    rcases hp : s.pending with _ | ⟨n, rest⟩ <;> simp [applyStep, hp] at h
    rcases h with ⟨-, h⟩
    subst h
    simp [counterInv, hp] at hinv ⊢
    omega
  | taskDone w =>
    rcases he : extractW w s.inflight with _ | ⟨n, rest⟩ <;> simp [applyStep, he] at h
    subst h
    obtain ⟨hlen, -⟩ := extractW_spec he
    simp [counterInv] at hinv ⊢
    omega

theorem applyStep_contentsM {s s2 : SysState} {st : QStep}
    (h : applyStep s st = some s2) :
    contentsM s2 = contentsM s + (pushesOf [st] : Multiset Notify) := by
  cases st with
  | push n =>
    simp [applyStep] at h
    subst h
    simp only [contentsM, pushesOf, List.map_append, ← Multiset.coe_add,
      Multiset.coe_singleton, Multiset.coe_nil, add_zero]
    abel
  | pop w =>
    rcases hp : s.pending with _ | ⟨n, rest⟩ <;> simp [applyStep, hp] at h
    rcases h with ⟨-, h⟩
    subst h
    simp only [contentsM, pushesOf, hp, List.map_append, List.map_cons, List.map_nil,
      ← Multiset.coe_add, Multiset.coe_singleton, Multiset.coe_nil, add_zero,
      ← Multiset.cons_coe, ← Multiset.singleton_add]
    abel
  | taskDone w =>
    rcases he : extractW w s.inflight with _ | ⟨n, rest⟩ <;> simp [applyStep, he] at h
    subst h
    obtain ⟨-, hms⟩ := extractW_spec he
    simp only [contentsM, pushesOf, List.map_append, List.map_cons, List.map_nil,
      ← Multiset.coe_add, Multiset.coe_singleton, Multiset.coe_nil, add_zero, hms,
      ← Multiset.singleton_add]
    abel

theorem runSteps_counterInv :
    ∀ {steps : List QStep} {s s2 : SysState},
      runSteps s steps = some s2 → counterInv s → counterInv s2 := by
  intro steps
  induction steps with
  | nil => intro s s2 h hinv; simp [runSteps] at h; subst h; exact hinv
  | cons st rest ih =>
    intro s s2 h hinv
    rcases ha : applyStep s st with _ | s1 <;> simp [runSteps, ha] at h
    exact ih h (applyStep_counterInv ha hinv)

theorem runSteps_contentsM :
    ∀ {steps : List QStep} {s s2 : SysState},
      runSteps s steps = some s2 →
      contentsM s2 = contentsM s + (pushesOf steps : Multiset Notify) := by
  intro steps
  induction steps with
  | nil => intro s s2 h; simp [runSteps] at h; subst h; simp [pushesOf]
  | cons st rest ih =>
    intro s s2 h
    rcases ha : applyStep s st with _ | s1 <;> simp [runSteps, ha] at h
    have h1 := applyStep_contentsM ha
    have h2 := ih h
    rw [h2, h1]
    cases st with
    | push n =>
      simp only [pushesOf, Multiset.coe_singleton, ← Multiset.cons_coe,
        ← Multiset.singleton_add]
      abel
    | pop w => simp [pushesOf]
    | taskDone w => simp [pushesOf]

/-- C1.  `stop()` waits on `notification_queue.join()`, which returns
exactly when `unfinished_tasks = 0`.  In any valid interleaving of the
listener's pushes with the workers' get/task_done steps, once the counter
is zero the queue and the in-flight set are empty and the completed items
(each tagged with the single worker that popped it) are exactly the
pushed notifications, as a multiset: nothing pushed before `stop()` is
lost, and nothing is processed twice. -/
theorem C1_stop_drains_exactly_once (steps : List QStep) (s : SysState)
    (hrun : runSteps initSys steps = some s) (hjoin : s.unfinished = 0) :
    s.pending = [] ∧ s.inflight = [] ∧ (s.done.map Prod.snd).Perm (pushesOf steps) := by
  have hinv : counterInv s := runSteps_counterInv hrun (by simp [counterInv, initSys])
  rw [counterInv, hjoin] at hinv
  have hpend : s.pending = [] := List.eq_nil_of_length_eq_zero (by omega)
  have hinfl : s.inflight = [] := List.eq_nil_of_length_eq_zero (by omega)
  refine ⟨hpend, hinfl, ?_⟩
  have hc := runSteps_contentsM hrun
  simp [contentsM, initSys, hpend, hinfl] at hc
  exact hc

/-- Steps of the concrete C1 scenario: two pushes, two workers, both
items completed. -/
def c1Steps : List QStep :=
  [QStep.push ⟨"c1", "101"⟩, QStep.push ⟨"c1", "102"⟩, QStep.pop 0,
    QStep.pop 1, QStep.taskDone 1, QStep.taskDone 0]

/-- Final state of the concrete C1 scenario. -/
def c1Final : SysState := ⟨[], [], [(1, ⟨"c1", "102"⟩), (0, ⟨"c1", "101"⟩)], 0⟩

/-- Concrete instance of C1: two notifications pushed, popped by two
distinct workers, both marked done; the counter is zero and the completed
items are a permutation of the pushed ones. -/
theorem C1_witness :
    runSteps initSys c1Steps = some c1Final ∧ c1Final.unfinished = 0 ∧
      (c1Final.pending = [] ∧ c1Final.inflight = [] ∧
        (c1Final.done.map Prod.snd).Perm (pushesOf c1Steps)) :=
  ⟨rfl, rfl, C1_stop_drains_exactly_once c1Steps c1Final rfl rfl⟩

/-! ## Reconnect backoff (claim C2)

`_listen_loop` (lines 125-127) hard-codes `reconnect_delay = 1.0`,
`reconnect_backoff = 2.0`, `max_reconnect_delay = 60.0`.  On every
successful connect it resets `reconnect_delay = 1.0` (line 138); on every
connection-class failure it sleeps `reconnect_delay` seconds, then sets
`reconnect_delay = min(reconnect_delay * reconnect_backoff,
max_reconnect_delay)` (lines 187-188).  All values involved are exactly
representable, so the float arithmetic is embedded in `ℚ`. -/

/-- The initial value of `reconnect_delay` and the value it is reset to
on every successful connect (lines 125 and 138). -/
def reconnect_delay0 : ℚ := 1

/-- `reconnect_backoff` (line 126). -/
def reconnect_backoff : ℚ := 2

/-- `max_reconnect_delay` (line 127). -/
def max_reconnect_delay : ℚ := 60

/-- Line 188: the delay update after a failure. -/
def nextDelay (d : ℚ) : ℚ := min (d * reconnect_backoff) max_reconnect_delay

/-- Outcome of one outer-loop iteration's connect attempt. -/
inductive ConnEvent where
  | success
  | failure
deriving DecidableEq, Repr

/-- The backoff behaviour of the outer loop over a sequence of connect
outcomes: a success resets the delay state to `reconnect_delay0` and
sleeps nothing; a failure sleeps the current delay, then applies
`nextDelay`.  Returns the final delay state and the observed sleep
durations in order. -/
def backoffRun (d : ℚ) : List ConnEvent → ℚ × List ℚ
  | [] => (d, [])
  | .success :: evs => backoffRun reconnect_delay0 evs
  | .failure :: evs =>
    let r := backoffRun (nextDelay d) evs
    (r.1, d :: r.2)

/-- Delay state after `k` consecutive failures starting from state `d`. -/
def streakState (d : ℚ) : Nat → ℚ
  | 0 => d
  | k + 1 => nextDelay (streakState d k)

theorem streakState_shift (d : ℚ) : ∀ k, streakState d (k + 1) = streakState (nextDelay d) k := by
  intro k
  induction k with
  | zero => rfl
  | succ k ih => rw [streakState, ih, streakState]

theorem streakState_bounds {d : ℚ} (h1 : 1 ≤ d) (h2 : d ≤ max_reconnect_delay) (k : Nat) :
    1 ≤ streakState d k ∧ streakState d k ≤ max_reconnect_delay := by
  induction k with
  | zero => exact ⟨h1, h2⟩
  | succ k ih =>
    obtain ⟨ia, ib⟩ := ih
    rw [streakState, nextDelay]
    refine ⟨le_min ?_ ?_, min_le_right _ _⟩
    · rw [reconnect_backoff]; linarith
    · rw [max_reconnect_delay]; norm_num

theorem backoffRun_failure_streak :
    ∀ (k : Nat) (d : ℚ),
      (backoffRun d (List.replicate k ConnEvent.failure)).2 =
        (List.range k).map (streakState d) := by
  intro k
  induction k with
  | zero => intro d; simp [backoffRun]
  | succ k ih =>
    intro d
    rw [List.replicate_succ]
    simp only [backoffRun, ih (nextDelay d), List.range_succ_eq_map, List.map_cons,
      List.map_map]
    refine congrArg₂ _ rfl ?_
    refine List.map_congr_left ?_
    intro i _
    simp only [Function.comp_apply]
    exact (streakState_shift d i).symm

/-- C2.  Within a failure streak the observed delays are the iterates of
`nextDelay`: each next delay equals `min(previous * reconnect_backoff,
max_reconnect_delay)` and the sequence is non-decreasing (for any streak
start state in the reachable range `[1, 60]`); a successful connect
resets the delay state to `reconnect_delay0` regardless of its previous
value; and from a fresh reset the first three observed delays are 1, 2
and 4 seconds. -/
theorem C2_backoff_delays :
    (∀ (d : ℚ) (k : Nat), 1 ≤ d → d ≤ max_reconnect_delay →
        streakState d k ≤ streakState d (k + 1) ∧
          streakState d (k + 1) =
            min (streakState d k * reconnect_backoff) max_reconnect_delay) ∧
      (∀ (d : ℚ) (evs : List ConnEvent),
        backoffRun d (ConnEvent.success :: evs) = backoffRun reconnect_delay0 evs) ∧
      (∀ (d : ℚ) (k : Nat),
        (backoffRun d (List.replicate k ConnEvent.failure)).2 =
          (List.range k).map (streakState d)) ∧
      (backoffRun reconnect_delay0 (List.replicate 3 ConnEvent.failure)).2 = [1, 2, 4] := by
  refine ⟨?_, fun d evs => rfl, fun d k => backoffRun_failure_streak k d, ?_⟩
  · intro d k h1 h2
    obtain ⟨ia, ib⟩ := streakState_bounds h1 h2 k
    refine ⟨?_, rfl⟩
    rw [streakState, nextDelay]
    refine le_min ?_ ib
    rw [reconnect_backoff]
    linarith
  · have h := backoffRun_failure_streak 3 reconnect_delay0
    rw [h]
    norm_num [streakState, nextDelay, reconnect_delay0, reconnect_backoff,
      max_reconnect_delay, List.range_succ]

/-! ## Wait operations performed by stop() (claim C3)

`stop()` (lines 247-264) performs, in order: `listener_thread.join(timeout=10)`
when the listener thread is alive, `notification_queue.join()` — the
`queue.Queue.join` method, which takes no timeout parameter and blocks until
`task_done` has been called for every item — and `worker.join(timeout=5)`
for each alive entry of `self.workers`. -/

/-- One blocking wait in `stop()`: a `Thread.join` with its `timeout`
argument, or `Queue.join`, whose API has no timeout at all. -/
inductive WaitOp where
  | threadJoin (name : String) (timeout : Option ℚ)
  | queueJoin
deriving DecidableEq, Repr

/-- The bound on a wait, when one exists. -/
def WaitOp.timeoutBound : WaitOp → Option ℚ
  | .threadJoin _ t => t
  | .queueJoin => none

/-- The waits of `stop()` in program order, given whether the listener
thread is alive and the aliveness of each recorded worker thread. -/
def stopWaitOps (listenerAlive : Bool) (workersAlive : List Bool) : List WaitOp :=
  (if listenerAlive then [WaitOp.threadJoin "NotificationListener" (some 10)] else [])
    ++ [WaitOp.queueJoin]
    ++ workersAlive.filterMap (fun alive =>
        if alive then some (WaitOp.threadJoin "NotificationWorker" (some 5)) else none)

/-- C3 is false as stated: `stop()` performs a wait with no bounded
timeout — `notification_queue.join()` (line 256).  Here with the listener
and two workers alive. -/
theorem C3_counterexample :
    WaitOp.queueJoin ∈ stopWaitOps true [true, true] ∧
      WaitOp.timeoutBound WaitOp.queueJoin = none := by
  constructor
  · simp [stopWaitOps]
  · rfl

/-- C3 amended: every thread join performed by `stop()` carries a bounded
timeout (10 s for the listener thread, 5 s per worker), but the queue
drain wait `notification_queue.join()` is always among the waits and has
no bound, so `stop()` can block indefinitely there if some popped item is
never marked done. -/
theorem C3_thread_joins_bounded (listenerAlive : Bool) (workersAlive : List Bool) :
    (∀ name t, WaitOp.threadJoin name t ∈ stopWaitOps listenerAlive workersAlive →
        t.isSome = true) ∧
      WaitOp.queueJoin ∈ stopWaitOps listenerAlive workersAlive := by
  constructor
  · intro name t hmem
    simp only [stopWaitOps, List.mem_append, List.mem_filterMap, List.mem_singleton] at hmem
    rcases hmem with (h | h) | ⟨a, -, ha⟩
    · cases listenerAlive <;> simp_all
    · simp_all
    · cases a <;> simp_all
      obtain ⟨-, h5⟩ := ha
      rw [← h5]
      rfl
  · cases listenerAlive <;> simp [stopWaitOps]

/-! ## Sleep primitives in _listen_loop (claim C4)

The poll cycle pauses with `self._stop_event.wait(0.1)` (line 167), which
returns as soon as `stop()` sets the event.  The reconnect backoff pauses
with `time.sleep(reconnect_delay)` (line 187), which nothing can
interrupt.  `stop()` nonetheless does not wait out a long backoff sleep:
its `listener_thread.join(timeout=10)` returns after at most 10 seconds
and `stop()` proceeds after logging (lines 249-253). -/

/-- A pause executed by the listener thread: `time.sleep` (nothing can
wake it early) or `self._stop_event.wait` (wakes when the event is set). -/
inductive SleepOp where
  | plainSleep (dur : ℚ)
  | eventWait (dur : ℚ)
deriving DecidableEq, Repr

/-- Whether the run flag going false (via `_stop_event.set()` in
`stop()`) can end the pause early. -/
def SleepOp.interruptible : SleepOp → Bool
  | .plainSleep _ => false
  | .eventWait _ => true

/-- Line 167: the poll-cycle pause. -/
def pollCyclePause : SleepOp := SleepOp.eventWait (1 / 10)

/-- Line 187: the reconnect-backoff pause, `time.sleep(reconnect_delay)`. -/
def reconnectPause (reconnect_delay : ℚ) : SleepOp := SleepOp.plainSleep reconnect_delay

/-- Time `stop()` spends in `listener_thread.join(timeout=10)` when the
listener thread stays busy for `remaining` more seconds: the join returns
at the earlier of the thread ending and the 10-second timeout. -/
def listenerJoinWait (remaining : ℚ) : ℚ := min remaining 10

/-- C4 is false as stated: the reconnect-backoff sleep is a plain
`time.sleep`, which the stop event cannot interrupt — unlike the
poll-cycle pause, which is interruptible. -/
theorem C4_counterexample :
    (reconnectPause 60).interruptible = false ∧ pollCyclePause.interruptible = true := by
  exact ⟨rfl, rfl⟩

/-- C4 amended: the backoff sleep is not interruptible, but `stop()`
still does not wait out the full remaining delay: its wait on the
listener thread lasts `min(remaining, 10)` seconds — never more than the
10-second join bound, and equal to that bound (not the remaining delay)
whenever the remaining backoff exceeds it. -/
theorem C4_stop_bounded_despite_sleep (remaining : ℚ) :
    (reconnectPause remaining).interruptible = false ∧
      listenerJoinWait remaining ≤ 10 ∧
      (10 ≤ remaining → listenerJoinWait remaining = 10) := by
  refine ⟨rfl, min_le_right _ _, fun h => min_eq_right h⟩

/-- Concrete instance of the amended C4: `stop()` during a 60-second
backoff sleep waits 10 seconds, not 60. -/
theorem C4_witness :
    (reconnectPause 60).interruptible = false ∧
      listenerJoinWait 60 ≤ 10 ∧ (10 ≤ (60 : ℚ) → listenerJoinWait 60 = 10) :=
  C4_stop_bounded_despite_sleep 60

/-! ## Handler failure boundary (claim C5)

`_handle_notification` (lines 73-101) logs the arrival (channel and
payload, line 78), runs the stored-procedure call, logs the result
(line 92), and wraps everything in `try/except Exception`, logging any
raised error (line 101) and returning normally.  `_worker_loop`
(lines 103-119) calls it for each popped item and then calls
`task_done`; it never re-queues an item and keeps looping. -/

/-- Outcome of the domain work inside `_handle_notification`'s `try`
block: the stored-procedure call returns results, or raises. -/
inductive HandlerOutcome where
  | ok (results : String)
  | raises (excMsg : String)
deriving DecidableEq, Repr

/-- One log record, a constructor per logging statement involved. -/
inductive LogEntry where
  | gotNotification (channel payload : String)
  | processed (payload results : String)
  | errorProcessing (excMsg : String)
deriving DecidableEq, Repr

/-- `_handle_notification`: always returns, catching a raised error and
logging it; the arrival entry records the notification's channel and
payload. -/
def handleNotification (handler : Notify → HandlerOutcome) (n : Notify) : List LogEntry :=
  LogEntry.gotNotification n.channel n.payload ::
    (match handler n with
     | .ok results => [LogEntry.processed n.payload results]
     | .raises e => [LogEntry.errorProcessing e])

/-- The worker's sequential processing of the notifications it pops:
each is handled and then marked done.  Returns the emitted log and the
number of `task_done` calls; the worker never re-queues anything. -/
def workerProcess (handler : Notify → HandlerOutcome) : List Notify → List LogEntry × Nat
  | [] => ([], 0)
  | n :: rest =>
    let r := workerProcess handler rest
    (handleNotification handler n ++ r.1, r.2 + 1)

/-- C5.  When the handler raises on a notification, the error is caught:
the worker logs the notification (channel and payload) and the error,
still calls `task_done` for it (the `+ 1`), does not terminate, and
processes the remaining notifications exactly as it otherwise would —
with the same log and the same completion count for the rest. -/
theorem C5_handler_error_contained (handler : Notify → HandlerOutcome) (n : Notify)
    (e : String) (rest : List Notify) (he : handler n = HandlerOutcome.raises e) :
    workerProcess handler (n :: rest) =
      (LogEntry.gotNotification n.channel n.payload ::
          LogEntry.errorProcessing e :: (workerProcess handler rest).1,
        (workerProcess handler rest).2 + 1) := by
  simp [workerProcess, handleNotification, he]

/-- Concrete instance of C5: the handler raises on payload "bad"; the
worker logs the failure with the payload, marks the item done, and goes
on to process payload "102" normally. -/
theorem C5_witness :
    workerProcess
        (fun n => if n.payload == "bad" then HandlerOutcome.raises "boom"
          else HandlerOutcome.ok "r")
        [⟨"c1", "bad"⟩, ⟨"c1", "102"⟩] =
      (LogEntry.gotNotification "c1" "bad" ::
          LogEntry.errorProcessing "boom" ::
          (workerProcess
            (fun n => if n.payload == "bad" then HandlerOutcome.raises "boom"
              else HandlerOutcome.ok "r") [⟨"c1", "102"⟩]).1,
        (workerProcess
          (fun n => if n.payload == "bad" then HandlerOutcome.raises "boom"
            else HandlerOutcome.ok "r") [⟨"c1", "102"⟩]).2 + 1) :=
  C5_handler_error_contained _ ⟨"c1", "bad"⟩ "boom" [⟨"c1", "102"⟩] (by decide)

/-! ## Lifecycle: __init__, start(), stop() (claims C6, C9, C10)

`__init__` (lines 56-71) performs plain field assignments: it takes the
connection URI, the channel name and the worker count, and no backoff
parameters — those are hard-coded locals of `_listen_loop`.  `start()`
(lines 205-234) returns after only a warning when already running;
otherwise it sets the flags and appends `max_workers` fresh worker
threads to `self.workers` (never clearing it).  `stop()` (lines 236-272)
returns immediately when not running; otherwise it clears the run flag,
sets the stop event, performs its joins (see `stopWaitOps`) iterating
over every entry of `self.workers`, and closes the connection.  It never
removes entries from `self.workers`. -/

/-- The listener state touched by the lifecycle methods.  `workers` holds
the names of the spawned worker threads in spawn order (the model of the
`self.workers` list of Thread records). -/
structure ListenerState where
  db_uri : String
  channel : String
  max_workers : Nat
  workers : List String
  running : Bool
  connOpen : Bool
  stopEventSet : Bool
  listenerSpawned : Bool
deriving DecidableEq, Repr

/-- `__init__`: unconditional field assignment.  No backoff parameter is
accepted and nothing is validated or rejected. -/
def NotificationListener.init (db_uri channel : String) (max_workers : Nat) : ListenerState :=
  { db_uri := db_uri, channel := channel, max_workers := max_workers,
    workers := [], running := false, connOpen := false, stopEventSet := false,
    listenerSpawned := false }

/-- The names given to the worker threads of one `start()` (line 221). -/
def workerNames (k : Nat) : List String :=
  (List.range k).map (fun i => "NotificationWorker-" ++ toString i)

/-- Extra log constructors for the lifecycle methods. -/
inductive LifeLog where
  | warnAlreadyRunning
  | startedWorker (name : String)
  | startedListener
  | stoppingListener
  | listenerStopped
deriving DecidableEq, Repr

/-- `start()`: warn and change nothing when already running; otherwise
set the run flag, clear the stop event, append `max_workers` fresh worker
threads to `self.workers` and spawn the listener thread. -/
def startL (s : ListenerState) : ListenerState × List LifeLog :=
  if s.running then (s, [LifeLog.warnAlreadyRunning])
  else
    ({ s with
        running := true
        stopEventSet := false
        workers := s.workers ++ workerNames s.max_workers
        listenerSpawned := true },
      (workerNames s.max_workers).map LifeLog.startedWorker ++ [LifeLog.startedListener])

/-- `stop()`: return immediately when not running; otherwise clear the
run flag, set the stop event, wait (see `stopWaitOps`), and close the
connection.  The `workers` list is left untouched. -/
def stopL (s : ListenerState) : ListenerState × List LifeLog :=
  if s.running then
    ({ s with running := false, stopEventSet := true, connOpen := false },
      [LifeLog.stoppingListener, LifeLog.listenerStopped])
  else (s, [])

/-- C6.  `start()` on an already-running listener changes no state and
spawns nothing — it only logs a warning; `stop()` on a listener that is
not running is a pure no-op. -/
theorem C6_start_stop_no_op (s : ListenerState) :
    (s.running = true → startL s = (s, [LifeLog.warnAlreadyRunning])) ∧
      (s.running = false → stopL s = (s, [])) := by
  constructor <;> intro h <;> simp [startL, stopL, h]

/-- C9 is false as stated: constructing the listener is unconditional
field assignment.  The constructor takes no backoff parameters at all and
rejects nothing — here it accepts its arguments and returns the plain
initial state. -/
theorem C9_counterexample :
    NotificationListener.init "postgresql://user@host/db" "do_bg_comp" 5 =
      { db_uri := "postgresql://user@host/db", channel := "do_bg_comp", max_workers := 5,
        workers := [], running := false, connOpen := false, stopEventSet := false,
        listenerSpawned := false } := rfl

/-- C9 amended: the backoff parameters are not configuration inputs but
the hard-coded constants of `_listen_loop`; they satisfy the validity
constraints (base delay positive, multiplier above one, base within the
cap), so an invalid backoff configuration cannot be constructed, and
no construction-time validation exists or fires. -/
theorem C9_backoff_constants_valid :
    0 < reconnect_delay0 ∧ 1 < reconnect_backoff ∧
      reconnect_delay0 ≤ max_reconnect_delay := by
  refine ⟨?_, ?_, ?_⟩ <;>
    norm_num [reconnect_delay0, reconnect_backoff, max_reconnect_delay]

/-- One full `start()`-then-`stop()` lifecycle. -/
def lifecycle (s : ListenerState) : ListenerState := (stopL (startL s).1).1

theorem lifecycle_of_not_running {s : ListenerState} (h : s.running = false) :
    lifecycle s = { s with
      workers := s.workers ++ workerNames s.max_workers
      running := false
      stopEventSet := true
      connOpen := false
      listenerSpawned := true } := by
  simp [lifecycle, startL, stopL, h]

theorem lifecycle_iter_state (u c : String) (w : Nat) :
    ∀ k : Nat, (lifecycle^[k] (NotificationListener.init u c w)).running = false ∧
      (lifecycle^[k] (NotificationListener.init u c w)).max_workers = w ∧
      (lifecycle^[k] (NotificationListener.init u c w)).workers =
        (List.replicate k (workerNames w)).flatten := by
  intro k
  induction k with
  | zero => refine ⟨rfl, rfl, rfl⟩
  | succ k ih =>
    obtain ⟨hr, hw, hl⟩ := ih
    rw [Function.iterate_succ_apply', lifecycle_of_not_running hr]
    refine ⟨rfl, hw, ?_⟩
    simp only [hl, hw, List.replicate_succ']
    simp

/-- C10.  `stop()` never removes entries from `self.workers`, so across
repeated lifecycles the list only grows: after `k` completed
start/stop cycles it holds `k * max_workers` thread records, and the next
cycle appends `max_workers` more while retaining every record of the
previous cycles — the records a later `stop()`'s join loop then iterates
over. -/
theorem C10_workers_list_only_grows (u c : String) (w k : Nat) :
    (lifecycle^[k] (NotificationListener.init u c w)).workers.length = k * w ∧
      (lifecycle^[k + 1] (NotificationListener.init u c w)).workers =
        (lifecycle^[k] (NotificationListener.init u c w)).workers ++ workerNames w := by
  obtain ⟨hr, hw, hl⟩ := lifecycle_iter_state u c w k
  constructor
  · rw [hl]
    simp [workerNames, mul_comm]
  · rw [Function.iterate_succ_apply', lifecycle_of_not_running hr, hw]

/-! ## Connection lifecycle in _listen_loop (claim C7)

Each iteration of the outer `while self.running` loop calls
`psycopg2.connect` for a fresh handle (line 133).  Every path out of the
listening cycle closes the handle before the next iteration can connect:
a connection-class error is caught at lines 170-181, which close
`self.conn` and set it to `None` before the backoff sleep and retry; an
unexpected exception triggers `stop()` and `break` (lines 189-195); and
the `finally` block (lines 196-203) closes any still-open handle on every
exit of the iteration, including the normal stop path.  So at most one
connection is ever open, an old handle is closed before a new one is
created, and each attempt uses a fresh handle. -/

/-- How one iteration of the outer loop ends. -/
inductive IterOutcome where
  | connectFailEarly
  | connectFailLate
  | pollError
  | stopSignal
  | unexpected
deriving DecidableEq, Repr

/-- A connection-handle event: `psycopg2.connect` returning handle `id`,
or `conn.close()` of handle `id`. -/
inductive ConnOp where
  | created (id : Nat)
  | closed (id : Nat)
deriving DecidableEq, Repr

/-- The handle events of one iteration.  When `psycopg2.connect` itself
raises, no handle exists; on every other outcome a fresh handle is
created and then closed — by the except-handler (lines 175-181) on
connection errors, or by the `finally` block (lines 196-203) otherwise. -/
def iterOps (id : Nat) : IterOutcome → List ConnOp
  | .connectFailEarly => []
  | _ => [ConnOp.created id, ConnOp.closed id]

/-- Whether the outer loop runs another iteration afterwards: the stop
path and the unexpected-exception path `break`; connection failures
back off and retry. -/
def iterContinues : IterOutcome → Bool
  | .stopSignal => false
  | .unexpected => false
  | _ => true

/-- Next fresh handle id. -/
def nextConnId (id : Nat) : IterOutcome → Nat
  | .connectFailEarly => id
  | _ => id + 1

/-- The handle-event trace of `_listen_loop` over a sequence of
iteration outcomes. -/
def runListen (id : Nat) : List IterOutcome → List ConnOp
  | [] => []
  | o :: rest =>
    iterOps id o ++ (if iterContinues o then runListen (nextConnId id o) rest else [])

/-- Scan a trace with the number of currently open handles: `true` iff
every `created` happens while no handle is open (hence also: never more
than one handle open). -/
def connOk (openCnt : Nat) : List ConnOp → Bool
  | [] => true
  | ConnOp.created _ :: r => openCnt == 0 && connOk (openCnt + 1) r
  | ConnOp.closed _ :: r => connOk (openCnt - 1) r

/-- The ids of the handles created along a trace, in creation order. -/
def createdIds : List ConnOp → List Nat
  | [] => []
  | ConnOp.created i :: r => i :: createdIds r
  | ConnOp.closed _ :: r => createdIds r

theorem runListen_inv :
    ∀ (outs : List IterOutcome) (id : Nat),
      connOk 0 (runListen id outs) = true ∧
        List.Chain' (· < ·) (createdIds (runListen id outs)) ∧
        (∀ i ∈ createdIds (runListen id outs), id ≤ i) := by
  intro outs
  induction outs with
  | nil => intro id; refine ⟨rfl, List.chain'_nil, by simp [runListen, createdIds]⟩
  | cons o rest ih =>
    intro id
    cases o with
    | connectFailEarly =>
      simpa [runListen, iterOps, iterContinues, nextConnId] using ih id
    | stopSignal =>
      simp [runListen, iterOps, iterContinues, connOk, createdIds]
    | unexpected =>
      simp [runListen, iterOps, iterContinues, connOk, createdIds]
    | connectFailLate =>
      obtain ⟨h1, h2, h3⟩ := ih (id + 1)
      refine ⟨by simpa [runListen, iterOps, iterContinues, nextConnId, connOk] using h1, ?_, ?_⟩
      · simp only [runListen, iterOps, iterContinues, nextConnId, if_pos, List.cons_append,
          List.nil_append, createdIds]
        exact List.chain'_cons'.mpr ⟨fun y hy => by
          have := h3 y (List.mem_of_mem_head? hy); omega, h2⟩
      · intro i hi
        simp only [runListen, iterOps, iterContinues, nextConnId, List.cons_append,
          List.nil_append, createdIds, List.mem_cons] at hi
        rcases hi with rfl | hi
        · exact Nat.le_refl _
        · exact le_trans (Nat.le_succ _) (h3 i (by simpa using hi))
    | pollError =>
      obtain ⟨h1, h2, h3⟩ := ih (id + 1)
      refine ⟨by simpa [runListen, iterOps, iterContinues, nextConnId, connOk] using h1, ?_, ?_⟩
      · simp only [runListen, iterOps, iterContinues, nextConnId, if_pos, List.cons_append,
          List.nil_append, createdIds]
        exact List.chain'_cons'.mpr ⟨fun y hy => by
          have := h3 y (List.mem_of_mem_head? hy); omega, h2⟩
      · intro i hi
        simp only [runListen, iterOps, iterContinues, nextConnId, List.cons_append,
          List.nil_append, createdIds, List.mem_cons] at hi
        rcases hi with rfl | hi
        · exact Nat.le_refl _
        · exact le_trans (Nat.le_succ _) (h3 i (by simpa using hi))

/-- C7.  Along every possible run of `_listen_loop`: every connect
happens while no handle is open (`connOk`), so at most one connection is
ever in the listening state and the old handle is closed before a new one
is created; and the created handle ids are strictly increasing — a fresh
handle on every attempt, never a reused one. -/
theorem C7_single_connection (outs : List IterOutcome) :
    connOk 0 (runListen 0 outs) = true ∧
      List.Chain' (· < ·) (createdIds (runListen 0 outs)) :=
  ⟨(runListen_inv outs 0).1, (runListen_inv outs 0).2.1⟩

/-! ## Intake drain of conn.notifies (claim C8)

Lines 156-163: `while self.conn.notifies: notify = pop(0); if
self.running: queue.put(notify) else: drop (debug log)`.  The
notifications are taken in arrival order; the `running` check is read
once per notification. -/

/-- One drained entry: the notification together with the value the
`if self.running` check reads for it. -/
def drainStep (p : Notify × Bool) : Option Notify :=
  if p.2 then some p.1 else none

/-- The queue pushes produced by draining `conn.notifies`, in order. -/
def drainNotifies (obs : List (Notify × Bool)) : List Notify :=
  obs.filterMap drainStep

/-- C8.  The drain pushes exactly the notifications observed with the
run flag still true, in observation order (first conjunct, for any
interleaving of flag readings); in particular once the flag has gone
false — it never returns to true during a stop — every earlier
observation is enqueued in order and every later one is dropped (second
conjunct). -/
theorem C8_drain_respects_run_flag :
    (∀ obs : List (Notify × Bool),
        drainNotifies obs = (obs.filter (fun p => p.2)).map Prod.fst) ∧
      (∀ pre post : List Notify,
        drainNotifies
            (pre.map (fun n => (n, true)) ++ post.map (fun n => (n, false))) = pre) := by
  have hgen : ∀ obs : List (Notify × Bool),
      drainNotifies obs = (obs.filter (fun p => p.2)).map Prod.fst := by
    intro obs
    induction obs with
    | nil => rfl
    | cons p r ih =>
      rcases p with ⟨n, b⟩
      cases b <;> simp [drainNotifies, drainStep, List.filter_cons] at ih ⊢ <;> exact ih
  have hkeep : ∀ pre : List Notify, drainNotifies (pre.map (fun n => (n, true))) = pre := by
    intro pre
    induction pre with
    | nil => rfl
    | cons n r ih => simpa [drainNotifies, drainStep] using ih
  have hdrop : ∀ post : List Notify, drainNotifies (post.map (fun n => (n, false))) = [] := by
    intro post
    induction post with
    | nil => rfl
    | cons n r ih => simp [drainNotifies, drainStep] at ih ⊢
  refine ⟨hgen, ?_⟩
  intro pre post
  have hsplit : drainNotifies (pre.map (fun n => (n, true)) ++ post.map (fun n => (n, false))) =
      drainNotifies (pre.map (fun n => (n, true)))
        ++ drainNotifies (post.map (fun n => (n, false))) := by
    simp only [drainNotifies]
    exact List.filterMap_append _ _ _
  rw [hsplit, hkeep, hdrop, List.append_nil]

end AsyncBg
